import Mathlib

/-!
Verification of `src/fetch_liquidations.py` (liquidation-heatmap fetcher).

The Python program is shallowly embedded here:
* JSON payloads become the inductive `JVal`; Python `dict.get`, truthiness
  (`if x:`), `x or y` and `float(...)` become `jgetD`, `jTruthy`, `jOr`
  and `pyFloat`.
* Network calls are abstracted as `Except Unit JVal` inputs: `.error ()`
  stands for any transport/JSON exception, `.ok j` for a decoded body.
  A Python exception raised while *parsing* a decoded body propagates in
  the `Except` monad to the enclosing `try`, exactly as in the source.
* Python floats are modelled as exact rationals (`ℚ`); `int(x)` for the
  nonnegative/negative cases is `pyInt`, `round(x, 2)` is `pyRound2`
  (round-half-to-even, Python3 semantics).
* `defaultdict` bucket maps become association lists in insertion order
  (`dupd`); `sorted(d.keys())` followed by `d[k]` lookups becomes sorting
  the (key, value) pairs themselves, which is equivalent because `dupd`
  never duplicates a key.
-/

/- Batteries marks the `Rat` arithmetic operations `@[irreducible]`, which
blocks elaborator-side evaluation of concrete rational computations in
`decide`-style proofs; restore the default reducibility so concrete runs of
the embedded pipeline can be checked by reduction. -/
set_option allowUnsafeReducibility true
attribute [semireducible] Rat.add Rat.mul Rat.inv Rat.div Rat.sub Rat.neg

/-- A JSON-like Python value (the payload shapes the script manipulates). -/
inductive JVal where
  | null : JVal
  | bool (b : Bool) : JVal
  | num (q : ℚ) : JVal
  | str (s : String) : JVal
  | arr (elems : List JVal) : JVal
  | obj (fields : List (String × JVal)) : JVal

/-- Key lookup in a JSON object's field list (Python dicts have unique keys;
first match wins). -/
def jlookup : List (String × JVal) → String → Option JVal
  | [], _ => none
  | (k, v) :: rest, key => if k = key then some v else jlookup rest key

/-- Python truthiness of a JSON value (`if x:`). -/
def jTruthy : JVal → Bool
  | .null => false
  | .bool b => b
  | .num q => q != 0
  | .str s => s != ""
  | .arr l => !l.isEmpty
  | .obj l => !l.isEmpty

/-- Python `x.get(key, dflt)`: succeeds on a dict, raises `AttributeError`
(modelled as `.error ()`) on anything else. -/
def jgetD (j : JVal) (key : String) (dflt : JVal) : Except Unit JVal :=
  match j with
  | .obj kvs => .ok ((jlookup kvs key).getD dflt)
  | _ => .error ()

/-- Python `a or b`: the first operand if truthy, otherwise the second. -/
def jOr (a b : JVal) : JVal := if jTruthy a then a else b

/-- Python numeric coercion as the script uses it: `float(x)` on a number,
booleans count as 0/1, anything else raises (modelled as `.error ()`).
(The script only ever applies it to values that are numeric in practice;
a numeric string would also convert in Python, but no claim depends on
string-encoded numbers, so payloads are modelled with `JVal.num`.) -/
def pyFloat : JVal → Except Unit ℚ
  | .num q => .ok q
  | .bool b => .ok (if b then 1 else 0)
  | _ => .error ()

/-- Python `int(q)`: truncation toward zero. -/
def pyInt (q : ℚ) : ℤ := if 0 ≤ q then ⌊q⌋ else -⌊-q⌋

/-- Python 3 `round(q, 2)`: round half to even at two decimals. -/
def pyRound2 (q : ℚ) : ℚ :=
  let s := q * 100
  let n := ⌊s⌋
  let f := s - (n : ℚ)
  if f < 1/2 then (n : ℚ) / 100
  else if 1/2 < f then ((n : ℚ) + 1) / 100
  else (if n % 2 = 0 then (n : ℚ) else (n : ℚ) + 1) / 100

/-- The fixed tracked-instrument list `TOP_COINS` of the script. -/
def TOP_COINS : List String :=
  ["BTC", "ETH", "SOL", "HYPE", "XRP", "DOGE", "SUI", "LINK", "AVAX", "PEPE"]

/-- One entry of `LEVERAGE_BUCKETS`. -/
structure LevBucket where
  min : ℚ
  max : ℚ
  label : String
  color : String
deriving DecidableEq, Repr

/-- The script's `LEVERAGE_BUCKETS` constant. -/
def LEVERAGE_BUCKETS : List LevBucket :=
  [⟨1, 10, "10x", "#3b82f6"⟩,
   ⟨11, 25, "25x", "#eab308"⟩,
   ⟨26, 50, "50x", "#f97316"⟩,
   ⟨51, 100, "100x", "#ef4444"⟩]

/-- The `for bucket in LEVERAGE_BUCKETS` loop of `get_leverage_bucket`:
first range containing the value wins. -/
def findBucket : List LevBucket → ℚ → Option String
  | [], _ => none
  | b :: rest, lv =>
      if b.min ≤ lv ∧ lv ≤ b.max then some b.label else findBucket rest lv

/-- `get_leverage_bucket`: first matching range's label, falling through to
`"100x"` when no range matches. -/
def get_leverage_bucket (leverage : ℚ) : String :=
  (findBucket LEVERAGE_BUCKETS leverage).getD "100x"

/-- A normalized position record, as built by `fetch_clearinghouse_state`. -/
structure PyPos where
  coin : String
  liquidationPx : ℚ
  entryPx : ℚ
  size : ℚ
  positionValue : ℚ
  leverage : ℚ
  leverageBucket : String
  side : String
deriving DecidableEq, Repr

/-- The leverage-descriptor extraction of `fetch_clearinghouse_state`
(line 121): `leverage_info.get('value', 1) if isinstance(leverage_info, dict)
else 1`. Any non-dict descriptor — including a bare number — yields 1. -/
def extractLeverage (li : JVal) : JVal :=
  match li with
  | .obj kvs => (jlookup kvs "value").getD (.num 1)
  | _ => .num 1

/-- Processing of one `assetPositions` entry (loop body of
`fetch_clearinghouse_state`): `none` means the entry is skipped
(`continue` or "missing/falsy price"), `.error` a raised exception.
The `szi` default is Python's string `'0'`, which is truthy and converts
to `0.0`; it is modelled as `.num 0`, which is falsy and also gives size
`0` — the resulting record is identical. -/
def parseTracked (pos : JVal) (coin : String) : Except Unit (Option PyPos) :=
  (jgetD pos "liquidationPx" .null).bind fun liqJ =>
  (jgetD pos "entryPx" .null).bind fun entryJ =>
  (jgetD pos "szi" (.num 0)).bind fun sziJ =>
  (jgetD pos "leverage" (.obj [])).bind fun levJ =>
  if jTruthy liqJ && jTruthy entryJ then
    (if jTruthy sziJ then pyFloat sziJ else .ok 0).bind fun szf =>
    (pyFloat (extractLeverage levJ)).bind fun lev =>
    (pyFloat liqJ).bind fun liq =>
    (pyFloat entryJ).bind fun entry =>
    .ok (some
      { coin := coin
        liquidationPx := liq
        entryPx := entry
        size := |szf|
        positionValue := |szf| * entry
        leverage := lev
        leverageBucket := get_leverage_bucket lev
        side := if 0 < szf then "long" else "short" })
  else .ok none

/-- The `coin not in TOP_COINS: continue` filter: only a tracked string
coin proceeds to `parseTracked`. -/
def parseCoin (pos coinJ : JVal) : Except Unit (Option PyPos) :=
  match coinJ with
  | .str coin => if coin ∈ TOP_COINS then parseTracked pos coin else .ok none
  | _ => .ok none

def parseEntry (ap : JVal) : Except Unit (Option PyPos) :=
  (jgetD ap "position" (.obj [])).bind fun pos =>
  (jgetD pos "coin" (.str "")).bind fun coinJ =>
  parseCoin pos coinJ

/-- Body of the `try` block of `fetch_clearinghouse_state` applied to a
decoded response: extract `assetPositions` (default `[]`) and fold the
per-entry parser over it. Iterating a non-list raises (any non-list value
either raises directly or makes every loop body raise, and the caller
collapses both to `[]`). -/
def parsePositions (data : JVal) : Except Unit (List PyPos) := do
  let aps ← jgetD data "assetPositions" (.arr [])
  match aps with
  | .arr l =>
      l.foldlM (fun acc ap => do
        match (← parseEntry ap) with
        | some p => pure (acc ++ [p])
        | none => pure acc) []
  | _ => .error ()

/-- `fetch_clearinghouse_state`: the argument abstracts the HTTP call
(`.error ()` = transport/JSON failure). Every exception inside the `try`
block yields `[]` for this account. -/
def fetch_clearinghouse_state (resp : Except Unit JVal) : List PyPos :=
  match resp >>= parsePositions with
  | .ok l => l
  | .error _ => []

/-- The per-wallet collection loop of `main` (lines 294-302): each wallet's
positions are appended to the running list; the oracle maps a wallet to
its (abstracted) HTTP response. -/
def collectAll (oracle : JVal → Except Unit JVal) (wallets : List JVal) :
    List PyPos :=
  wallets.foldl (fun acc w => acc ++ fetch_clearinghouse_state (oracle w)) []

/-- Wallet extraction from the *primary* leaderboard response (the body of
the outer `try` of `fetch_leaderboard`). `.error ()` models an exception
raised while iterating/extracting (which sends control to the fallback).
A dict without a `leaderboardRows` key, or a response that is neither dict
nor list, yields zero wallets *successfully* (no fallback). -/
def extractPrimary (data : JVal) : Except Unit (List JVal) :=
  match data with
  | .obj kvs =>
      match jlookup kvs "leaderboardRows" with
      | none => .ok []
      | some (.arr rows) =>
          (rows.take 200).foldlM (fun ws entry => do
            match entry with
            | .obj ekvs =>
                let wallet := jOr ((jlookup ekvs "ethAddress").getD .null)
                                  ((jlookup ekvs "user").getD .null)
                pure (if jTruthy wallet then ws ++ [wallet] else ws)
            | _ => .error ()) []
      | some (.str s) => if s = "" then .ok [] else .error ()
      | some _ => .error ()
  | .arr l =>
      .ok ((l.take 200).foldl (fun ws entry =>
        match entry with
        | .obj ekvs =>
            let wallet := jOr (jOr ((jlookup ekvs "ethAddress").getD .null)
                                   ((jlookup ekvs "user").getD .null))
                              ((jlookup ekvs "address").getD .null)
            if jTruthy wallet then ws ++ [wallet] else ws
        | .str s => ws ++ [.str s]
        | _ => ws) [])
  | _ => .ok []

/-- Wallet extraction from the *fallback* leaderboard response: only a bare
list of dicts is accepted, only `ethAddress`/`user` keys, no bare strings;
never raises once the body is decoded. -/
def extractFallback (data : JVal) : List JVal :=
  match data with
  | .arr l =>
      (l.take 200).foldl (fun ws entry =>
        match entry with
        | .obj ekvs =>
            let wallet := jOr ((jlookup ekvs "ethAddress").getD .null)
                              ((jlookup ekvs "user").getD .null)
            if jTruthy wallet then ws ++ [wallet] else ws
        | _ => ws) []
  | _ => []

/-- `fetch_leaderboard`: the two arguments abstract the primary GET and the
fallback POST (`.error ()` = transport/JSON failure). The second component
of the result counts how many times the fallback source was attempted.
The fallback runs exactly when the primary `try` block raises; a primary
response that decodes but yields zero wallets is returned as-is. -/
def fetch_leaderboard (primary fallback : Except Unit JVal) :
    List JVal × ℕ :=
  match primary >>= extractPrimary with
  | .ok ws => (ws, 0)
  | .error _ =>
      match fallback with
      | .ok data => (extractFallback data, 1)
      | .error _ => ([], 1)

/-- A price snapshot: the dict built by `fetch_current_prices`. -/
abbrev Snap := List (String × ℚ)

/-- Python dict upsert `prices[coin] = mark_price`. -/
def setD (m : Snap) (k : String) (v : ℚ) : Snap :=
  match m with
  | [] => [(k, v)]
  | (k1, v1) :: rest => if k1 = k then (k, v) :: rest else (k1, v1) :: setD rest k v

/-- Python `d.get(k, 0)` on the price snapshot. -/
def lookupD (m : Snap) (k : String) : ℚ :=
  match m with
  | [] => 0
  | (k1, v) :: rest => if k1 = k then v else lookupD rest k

/-- The zip of `meta['universe']` with the index-aligned contexts list
(inner loop of `fetch_current_prices`): tracked coins with an in-range
index get `float(contexts[i].get('markPx', 0) or 0)`. -/
def buildPrices (meta contexts : JVal) : Except Unit Snap := do
  let univJ ← jgetD meta "universe" (.arr [])
  match univJ, contexts with
  | .arr univ, .arr ctxs =>
      univ.enum.foldlM (fun prices iAsset => do
        let nameJ ← jgetD iAsset.2 "name" (.str "")
        match nameJ with
        | .str coin =>
            if coin ∈ TOP_COINS ∧ iAsset.1 < ctxs.length then do
              let mpJ ← jgetD (ctxs.getD iAsset.1 .null) "markPx" (.num 0)
              let mp ← pyFloat (jOr mpJ (.num 0))
              pure (setD prices coin mp)
            else pure prices
        | _ => pure prices) []
  | _, _ => .error ()

/-- `fetch_current_prices`: the argument abstracts the HTTP call. A body
with fewer than two elements leaves `prices` empty (the `if len(data) >= 2`
guard); any exception inside the `try` also yields the empty snapshot.
Non-list bodies either skip the guard (short strings/dicts) or raise. -/
def pricesTry (data : JVal) : Except Unit Snap :=
  match data with
  | .arr l =>
      if 2 ≤ l.length then buildPrices (l.getD 0 .null) (l.getD 1 .null)
      else .ok []
  | .str s => if 2 ≤ s.length then .error () else .ok []
  | .obj kvs => if 2 ≤ kvs.length then .error () else .ok []
  | _ => .error ()

def fetch_current_prices (resp : Except Unit JVal) : Snap :=
  match resp.bind pricesTry with
  | .ok p => p
  | .error _ => []

/-- One cell of the `defaultdict` bucket maps of `aggregate_liquidations`:
`{'total': 0, '10x': 0, '25x': 0, '50x': 0, '100x': 0}`. -/
structure BucketVals where
  total : ℚ
  x10 : ℚ
  x25 : ℚ
  x50 : ℚ
  x100 : ℚ
deriving DecidableEq, Repr

/-- The all-zero default cell. -/
def BucketVals.zero : BucketVals := ⟨0, 0, 0, 0, 0⟩

/-- `bucket[leverage_bucket] += value` for one of the four tier keys.
(`get_leverage_bucket` only ever produces these four labels; for any other
string Python would raise a `KeyError`, which never happens in the
pipeline — the catch-all branch is a no-op.) -/
def addToTier (b : BucketVals) (label : String) (v : ℚ) : BucketVals :=
  if label = "10x" then { b with x10 := b.x10 + v }
  else if label = "25x" then { b with x25 := b.x25 + v }
  else if label = "50x" then { b with x50 := b.x50 + v }
  else if label = "100x" then { b with x100 := b.x100 + v }
  else b

/-- The two `+=` lines for one position: add `v` to the bucket's total and
to its tier sub-total. -/
def addPos (b : BucketVals) (label : String) (v : ℚ) : BucketVals :=
  addToTier { b with total := b.total + v } label v

/-- A bucket map: association list keyed by bucket price, in insertion
order, unique keys (the `defaultdict`). -/
abbrev BucketMap := List (ℚ × BucketVals)

/-- `defaultdict` update: mutate the cell for key `k` in place, or append a
fresh zero cell updated by the same two `+=` lines. -/
def dupd (m : BucketMap) (k : ℚ) (label : String) (v : ℚ) : BucketMap :=
  match m with
  | [] => [(k, addPos BucketVals.zero label v)]
  | (k1, b) :: rest =>
      if k1 = k then (k1, addPos b label v) :: rest
      else (k1, b) :: dupd rest k label v

/-- Loop state of the per-position pass of `aggregate_liquidations`:
the two bucket maps and the two running totals. -/
structure AggState where
  longM : BucketMap
  shortM : BucketMap
  cumLong : ℚ
  cumShort : ℚ
deriving Repr

/-- The window-membership test `price_min <= liq_price <= price_max` with
`price_min = price*0.7`, `price_max = price*1.3`. -/
def inWindow (price liq : ℚ) : Bool :=
  decide (price * (7/10) ≤ liq) && decide (liq ≤ price * (13/10))

/-- Body of the `for pos in coin_positions` loop: positions outside the
window are skipped; otherwise the bucket index is
`min(int((liq - price_min)/bucket_size), 49)`, the bucket key is the
bucket midpoint, and the position's value is folded into the side's map
and running total. -/
def stepPos (price : ℚ) (st : AggState) (p : PyPos) : AggState :=
  let pmin := price * (7/10)
  let pmax := price * (13/10)
  let bsize := (pmax - pmin) / 50
  if inWindow price p.liquidationPx then
    let idx : ℤ := min (pyInt ((p.liquidationPx - pmin) / bsize)) 49
    let bprice := pmin + ((idx : ℚ) + 1/2) * bsize
    if p.side = "long" then
      { st with longM := dupd st.longM bprice p.leverageBucket p.positionValue
                cumLong := st.cumLong + p.positionValue }
    else
      { st with shortM := dupd st.shortM bprice p.leverageBucket p.positionValue
                cumShort := st.cumShort + p.positionValue }
  else st

/-- The whole per-position pass for one coin. -/
def runPositions (price : ℚ) (coinPos : List PyPos) : AggState :=
  coinPos.foldl (stepPos price) ⟨[], [], 0, 0⟩

/-- One emitted histogram row (`long_data` / `short_data` entries). -/
structure OutBucket where
  price : ℚ
  value : ℚ
  cumulative : ℚ
  x10 : ℚ
  x25 : ℚ
  x50 : ℚ
  x100 : ℚ
deriving DecidableEq, Repr

/-- Stable insertion into a list sorted by `le` (new element goes after all
existing elements that are `le` it). -/
def insertStable (le : α → α → Bool) (x : α) : List α → List α
  | [] => [x]
  | y :: ys => if le y x then y :: insertStable le x ys else x :: y :: ys

/-- Stable sort by `le` (Python's `sorted` / `list.sort` are stable). -/
def sortStable (le : α → α → Bool) (l : List α) : List α :=
  l.foldl (fun acc x => insertStable le x acc) []

/-- `sorted(keys, reverse=True)` on a bucket map, equivalently sorting the
pairs by descending key (keys are unique). -/
def sortPairsDesc (m : BucketMap) : BucketMap :=
  sortStable (fun a b => decide (b.1 ≤ a.1)) m

/-- `sorted(keys)` on a bucket map, as pairs. -/
def sortPairsAsc (m : BucketMap) : BucketMap :=
  sortStable (fun a b => decide (a.1 ≤ b.1)) m

/-- The output-row building loop: walk the sorted pairs, keep a running
cumulative sum, and emit a row per bucket with the price rounded to two
decimals. -/
def mkCum : BucketMap → ℚ → List OutBucket
  | [], _ => []
  | (k, b) :: rest, c =>
      ⟨pyRound2 k, b.total, c + b.total, b.x10, b.x25, b.x50, b.x100⟩ ::
        mkCum rest (c + b.total)

/-- `long_data` in its construction (descending-accumulation) order. -/
def longDataDesc (price : ℚ) (coinPos : List PyPos) : List OutBucket :=
  mkCum (sortPairsDesc (runPositions price coinPos).longM) 0

/-- `short_data` in its construction (ascending-accumulation) order. -/
def shortDataAsc (price : ℚ) (coinPos : List PyPos) : List OutBucket :=
  mkCum (sortPairsAsc (runPositions price coinPos).shortM) 0

/-- The final `.sort(key=lambda x: x['price'])` on emitted rows (stable). -/
def sortBucketsAsc (l : List OutBucket) : List OutBucket :=
  sortStable (fun a b => decide (a.price ≤ b.price)) l

/-- One instrument's emitted profile (`result[coin]`). -/
structure CoinData where
  currentPrice : ℚ
  longLiquidations : List OutBucket
  shortLiquidations : List OutBucket
  totalLongValue : ℚ
  totalShortValue : ℚ
  positionCount : ℕ
deriving DecidableEq, Repr

/-- The per-coin body of `aggregate_liquidations` after the guards, applied
to the already-filtered position list of the coin. -/
def aggregateCoin (price : ℚ) (coinPos : List PyPos) : CoinData :=
  let st := runPositions price coinPos
  { currentPrice := price
    longLiquidations := sortBucketsAsc (longDataDesc price coinPos)
    shortLiquidations := sortBucketsAsc (shortDataAsc price coinPos)
    totalLongValue := st.cumLong
    totalShortValue := st.cumShort
    positionCount := coinPos.length }

/-- `aggregate_liquidations`: for each tracked coin, skip it when its price
is missing/zero or it has no positions, otherwise aggregate its filtered
positions. Output in `TOP_COINS` order, as the Python dict would hold it. -/
def aggregate_liquidations (ps : List PyPos) (prices : Snap) :
    List (String × CoinData) :=
  TOP_COINS.foldr (fun coin acc =>
    let price := lookupD prices coin
    if price = 0 then acc
    else
      let coinPos := ps.filter (fun p => p.coin = coin)
      if coinPos.isEmpty then acc
      else (coin, aggregateCoin price coinPos) :: acc) []

/-! ### Supporting lemmas about the bucket maps -/

/-- The sum of the four tier sub-totals of a cell. -/
def tierSum (b : BucketVals) : ℚ := b.x10 + b.x25 + b.x50 + b.x100

/-- `addPos` always adds `v` to the cell's total, whatever the label. -/
theorem addPos_total (b : BucketVals) (lab : String) (v : ℚ) :
    (addPos b lab v).total = b.total + v := by
  unfold addPos addToTier
  split_ifs <;> rfl

/-- For one of the four real tier labels, `addPos` adds `v` to the tier sum. -/
theorem addPos_tierSum (b : BucketVals) (lab : String) (v : ℚ)
    (hl : lab ∈ ["10x", "25x", "50x", "100x"]) :
    tierSum (addPos b lab v) = tierSum b + v := by
  simp only [List.mem_cons, List.not_mem_nil, or_false] at hl
  rcases hl with rfl | rfl | rfl | rfl <;>
    simp [addPos, addToTier, tierSum] <;> ring

/-- Sum of the `total` fields over a bucket map. -/
def sumTot (m : BucketMap) : ℚ := (m.map (fun kb => kb.2.total)).sum

theorem sumTot_nil : sumTot [] = 0 := rfl

theorem sumTot_cons (kb : ℚ × BucketVals) (m : BucketMap) :
    sumTot (kb :: m) = kb.2.total + sumTot m := by
  simp [sumTot]

/-- A `defaultdict` update adds exactly `v` to the map's total sum. -/
theorem sumTot_dupd (m : BucketMap) (k : ℚ) (lab : String) (v : ℚ) :
    sumTot (dupd m k lab v) = sumTot m + v := by
  induction m with
  | nil =>
      simp [dupd, sumTot, addPos_total, BucketVals.zero]
  | cons kb rest ih =>
      rcases kb with ⟨k1, b⟩
      by_cases h : k1 = k
      · simp [dupd, h, sumTot_cons, addPos_total]
        ring
      · simp [dupd, h, sumTot_cons, ih]
        ring

/-- A `defaultdict` update keeps the per-cell invariant "tier sum = total"
as long as the label is one of the four real tiers. -/
theorem dupd_tier_inv (m : BucketMap) (k : ℚ) (lab : String) (v : ℚ)
    (hl : lab ∈ ["10x", "25x", "50x", "100x"])
    (hm : ∀ kb ∈ m, tierSum kb.2 = kb.2.total) :
    ∀ kb ∈ dupd m k lab v, tierSum kb.2 = kb.2.total := by
  induction m with
  | nil =>
      intro kb hkb
      simp [dupd] at hkb
      subst hkb
      have hz : tierSum BucketVals.zero = BucketVals.zero.total := by
        simp [tierSum, BucketVals.zero]
      simp [addPos_tierSum _ _ _ hl, addPos_total, hz]
  | cons kb0 rest ih =>
      rcases kb0 with ⟨k1, b⟩
      intro kb hkb
      by_cases h : k1 = k
      · simp [dupd, h] at hkb
        rcases hkb with hkb | hkb
        · subst hkb
          have hb := hm (k1, b) (by simp)
          simp [addPos_tierSum _ _ _ hl, addPos_total, hb]
        · exact hm kb (by simp [hkb])
      · simp [dupd, h] at hkb
        rcases hkb with hkb | hkb
        · subst hkb
          exact hm (k1, b) (by simp)
        · exact ih (fun kb2 h2 => hm kb2 (by simp [h2])) kb hkb

/-- One loop step keeps "map total-sums = running cumulative totals". -/
theorem stepPos_sums (price : ℚ) (st : AggState) (p : PyPos)
    (hl : sumTot st.longM = st.cumLong) (hs : sumTot st.shortM = st.cumShort) :
    sumTot (stepPos price st p).longM = (stepPos price st p).cumLong ∧
    sumTot (stepPos price st p).shortM = (stepPos price st p).cumShort := by
  unfold stepPos
  split_ifs with hw hside
  · exact ⟨by simp [sumTot_dupd, hl], by simp [hs]⟩
  · exact ⟨by simp [hl], by simp [sumTot_dupd, hs]⟩
  · exact ⟨hl, hs⟩

/-- One loop step keeps the per-cell tier invariant on both maps, provided
the position's tier label is one of the four real labels. -/
theorem stepPos_tier (price : ℚ) (st : AggState) (p : PyPos)
    (hp : p.leverageBucket ∈ ["10x", "25x", "50x", "100x"])
    (hl : ∀ kb ∈ st.longM, tierSum kb.2 = kb.2.total)
    (hs : ∀ kb ∈ st.shortM, tierSum kb.2 = kb.2.total) :
    (∀ kb ∈ (stepPos price st p).longM, tierSum kb.2 = kb.2.total) ∧
    (∀ kb ∈ (stepPos price st p).shortM, tierSum kb.2 = kb.2.total) := by
  unfold stepPos
  split_ifs with hw hside
  · exact ⟨by simpa using dupd_tier_inv _ _ _ _ hp hl, by simpa using hs⟩
  · exact ⟨by simpa using hl, by simpa using dupd_tier_inv _ _ _ _ hp hs⟩
  · exact ⟨hl, hs⟩

/-- The whole per-position pass keeps both invariants. -/
theorem foldl_inv (price : ℚ) (l : List PyPos) :
    ∀ st : AggState,
      sumTot st.longM = st.cumLong → sumTot st.shortM = st.cumShort →
      (∀ kb ∈ st.longM, tierSum kb.2 = kb.2.total) →
      (∀ kb ∈ st.shortM, tierSum kb.2 = kb.2.total) →
      (∀ p ∈ l, p.leverageBucket ∈ ["10x", "25x", "50x", "100x"]) →
      sumTot (l.foldl (stepPos price) st).longM
          = (l.foldl (stepPos price) st).cumLong ∧
      sumTot (l.foldl (stepPos price) st).shortM
          = (l.foldl (stepPos price) st).cumShort ∧
      (∀ kb ∈ (l.foldl (stepPos price) st).longM, tierSum kb.2 = kb.2.total) ∧
      (∀ kb ∈ (l.foldl (stepPos price) st).shortM, tierSum kb.2 = kb.2.total) := by
  induction l with
  | nil =>
      intro st h1 h2 h3 h4 _
      exact ⟨h1, h2, h3, h4⟩
  | cons p rest ih =>
      intro st h1 h2 h3 h4 hlb
      have hp : p.leverageBucket ∈ ["10x", "25x", "50x", "100x"] :=
        hlb p (by simp)
      have hsum := stepPos_sums price st p h1 h2
      have htier := stepPos_tier price st p hp h3 h4
      simpa using ih (stepPos price st p) hsum.1 hsum.2 htier.1 htier.2
        (fun q hq => hlb q (by simp [hq]))

/-- The running-total invariant alone (no tier-label hypothesis needed). -/
theorem foldl_sums_only (price : ℚ) (l : List PyPos) :
    ∀ st : AggState,
      sumTot st.longM = st.cumLong → sumTot st.shortM = st.cumShort →
      sumTot (l.foldl (stepPos price) st).longM
          = (l.foldl (stepPos price) st).cumLong ∧
      sumTot (l.foldl (stepPos price) st).shortM
          = (l.foldl (stepPos price) st).cumShort := by
  induction l with
  | nil => intro st h1 h2; exact ⟨h1, h2⟩
  | cons p rest ih =>
      intro st h1 h2
      have hsum := stepPos_sums price st p h1 h2
      simpa using ih (stepPos price st p) hsum.1 hsum.2

theorem runPositions_sumLong (price : ℚ) (l : List PyPos) :
    sumTot (runPositions price l).longM = (runPositions price l).cumLong :=
  (foldl_sums_only price l ⟨[], [], 0, 0⟩ rfl rfl).1

theorem runPositions_sumShort (price : ℚ) (l : List PyPos) :
    sumTot (runPositions price l).shortM = (runPositions price l).cumShort :=
  (foldl_sums_only price l ⟨[], [], 0, 0⟩ rfl rfl).2

theorem runPositions_tier (price : ℚ) (l : List PyPos)
    (hlb : ∀ p ∈ l, p.leverageBucket ∈ ["10x", "25x", "50x", "100x"]) :
    (∀ kb ∈ (runPositions price l).longM, tierSum kb.2 = kb.2.total) ∧
    (∀ kb ∈ (runPositions price l).shortM, tierSum kb.2 = kb.2.total) := by
  have h := foldl_inv price l ⟨[], [], 0, 0⟩ rfl rfl (by simp) (by simp) hlb
  exact ⟨h.2.2.1, h.2.2.2⟩

/-! ### The stable sort is a permutation -/

theorem insertStable_perm (le : α → α → Bool) (x : α) (l : List α) :
    List.Perm (insertStable le x l) (x :: l) := by
  induction l with
  | nil => rfl
  | cons y ys ih =>
      unfold insertStable
      by_cases h : le y x
      · simp only [h, if_pos]
        exact (ih.cons y).trans (List.Perm.swap x y ys)
      · simp [h]

theorem sortStable_foldl_perm (le : α → α → Bool) (l : List α) :
    ∀ acc : List α,
      List.Perm (l.foldl (fun a x => insertStable le x a) acc) (acc ++ l) := by
  induction l with
  | nil => intro acc; simp
  | cons x xs ih =>
      intro acc
      have h1 := ih (insertStable le x acc)
      have h2 : List.Perm (insertStable le x acc ++ xs) ((x :: acc) ++ xs) :=
        (insertStable_perm le x acc).append_right xs
      have h3 : List.Perm ((x :: acc) ++ xs) (acc ++ x :: xs) := by
        simpa using List.perm_middle.symm
      simpa using (h1.trans h2).trans h3

theorem sortStable_perm (le : α → α → Bool) (l : List α) :
    List.Perm (sortStable le l) l := by
  simpa using sortStable_foldl_perm le l []

theorem mem_sortStable (le : α → α → Bool) (l : List α) (x : α) :
    x ∈ sortStable le l ↔ x ∈ l :=
  (sortStable_perm le l).mem_iff

theorem sumTot_sortPairsDesc (m : BucketMap) :
    sumTot (sortPairsDesc m) = sumTot m :=
  List.Perm.sum_eq ((sortStable_perm _ m).map _)

theorem sumTot_sortPairsAsc (m : BucketMap) :
    sumTot (sortPairsAsc m) = sumTot m :=
  List.Perm.sum_eq ((sortStable_perm _ m).map _)

/-! ### The cumulative-row builder -/

/-- The first emitted row's cumulative equals the seed plus its own value. -/
theorem mkCum_head? (pairs : BucketMap) (c : ℚ) (ob : OutBucket)
    (h : (mkCum pairs c).head? = some ob) : ob.cumulative = c + ob.value := by
  cases pairs with
  | nil => simp [mkCum] at h
  | cons kb rest =>
      rcases kb with ⟨k, b⟩
      simp [mkCum] at h
      subst h
      rfl

/-- The last emitted row's cumulative equals the seed plus the sum of all
bucket totals. -/
theorem mkCum_getLast? (pairs : BucketMap) :
    ∀ (c : ℚ) (ob : OutBucket), (mkCum pairs c).getLast? = some ob →
      ob.cumulative = c + sumTot pairs := by
  induction pairs with
  | nil => intro c ob h; simp [mkCum] at h
  | cons kb rest ih =>
      rcases kb with ⟨k, b⟩
      intro c ob h
      cases hr : rest with
      | nil =>
          subst hr
          simp [mkCum] at h
          subst h
          simp [sumTot_cons, sumTot_nil]
      | cons kb2 rest2 =>
          subst hr
          rcases kb2 with ⟨k2, b2⟩
          simp only [mkCum, List.getLast?_cons_cons] at h
          have h2 := ih (c + b.total) ob (by simp [mkCum, h])
          rw [h2]
          simp only [sumTot_cons]
          ring

/-- Every emitted row copies its value and tier fields from some pair of the
map it was built from. -/
theorem mkCum_mem (pairs : BucketMap) :
    ∀ (c : ℚ) (ob : OutBucket), ob ∈ mkCum pairs c →
      ∃ kb ∈ pairs, ob.value = kb.2.total ∧ ob.x10 = kb.2.x10 ∧
        ob.x25 = kb.2.x25 ∧ ob.x50 = kb.2.x50 ∧ ob.x100 = kb.2.x100 := by
  induction pairs with
  | nil => intro c ob h; simp [mkCum] at h
  | cons kb rest ih =>
      rcases kb with ⟨k, b⟩
      intro c ob h
      simp only [mkCum, List.mem_cons] at h
      rcases h with h | h
      · exact ⟨(k, b), by simp, by simp [h]⟩
      · rcases ih (c + b.total) ob h with ⟨kb2, hkb2, hfields⟩
        exact ⟨kb2, by simp [hkb2], hfields⟩

/-- `mkCum` emits no rows exactly on the empty map. -/
theorem mkCum_eq_nil (pairs : BucketMap) (c : ℚ) :
    mkCum pairs c = [] ↔ pairs = [] := by
  cases pairs with
  | nil => simp [mkCum]
  | cons kb rest => rcases kb with ⟨k, b⟩; simp [mkCum]

/-! ### Locating an instrument's profile in the engine output -/

/-- Folding the per-coin emission step over any coin list only ever emits
entries of the shape `(coin, aggregateCoin price filtered)`. -/
theorem mem_aggFold (ps : List PyPos) (prices : Snap) (c : String)
    (d : CoinData) :
    ∀ coins : List String,
      (c, d) ∈ coins.foldr (fun coin acc =>
        if lookupD prices coin = 0 then acc
        else if (ps.filter (fun p => p.coin = coin)).isEmpty then acc
        else (coin, aggregateCoin (lookupD prices coin)
                (ps.filter (fun p => p.coin = coin))) :: acc) [] →
      d = aggregateCoin (lookupD prices c) (ps.filter (fun p => p.coin = c)) := by
  intro coins
  induction coins with
  | nil => intro hm; simp at hm
  | cons coin rest ih =>
      intro hm
      simp only [List.foldr_cons] at hm
      by_cases h0 : lookupD prices coin = 0
      · rw [if_pos h0] at hm
        exact ih hm
      · rw [if_neg h0] at hm
        by_cases hne : (ps.filter (fun p => p.coin = coin)).isEmpty
        · rw [if_pos hne] at hm
          exact ih hm
        · rw [if_neg hne] at hm
          rcases List.mem_cons.mp hm with he | hm2
          · have hc : c = coin := congrArg Prod.fst he
            have hd : d = aggregateCoin (lookupD prices coin)
                (ps.filter (fun p => p.coin = coin)) := congrArg Prod.snd he
            rw [hd, hc]
          · exact ih hm2

/-- Any entry of the output mapping is exactly the per-coin aggregation of
that coin's filtered positions at its snapshot price. -/
theorem mem_aggregate (ps : List PyPos) (prices : Snap) (c : String)
    (d : CoinData) (hm : (c, d) ∈ aggregate_liquidations ps prices) :
    d = aggregateCoin (lookupD prices c) (ps.filter (fun p => p.coin = c)) := by
  unfold aggregate_liquidations at hm
  exact mem_aggFold ps prices c d TOP_COINS hm

theorem aggregateCoin_currentPrice (price : ℚ) (l : List PyPos) :
    (aggregateCoin price l).currentPrice = price := rfl

theorem aggregateCoin_long (price : ℚ) (l : List PyPos) :
    (aggregateCoin price l).longLiquidations
      = sortBucketsAsc (longDataDesc price l) := rfl

theorem aggregateCoin_short (price : ℚ) (l : List PyPos) :
    (aggregateCoin price l).shortLiquidations
      = sortBucketsAsc (shortDataAsc price l) := rfl

theorem aggregateCoin_totalLong (price : ℚ) (l : List PyPos) :
    (aggregateCoin price l).totalLongValue = (runPositions price l).cumLong := rfl

theorem aggregateCoin_totalShort (price : ℚ) (l : List PyPos) :
    (aggregateCoin price l).totalShortValue
      = (runPositions price l).cumShort := rfl

theorem aggregateCoin_count (price : ℚ) (l : List PyPos) :
    (aggregateCoin price l).positionCount = l.length := rfl

/-- C1. For every instrument in the engine's output: in the long side's
descending-accumulation order (`longDataDesc`), the first bucket — the one
nearest the current price — has cumulative equal to its own total, and the
last — the lowest-price bucket — has cumulative equal to the instrument's
total long value; symmetrically, in the short side's ascending-accumulation
order (`shortDataAsc`), the first (lowest-price) bucket's cumulative equals
its own total and the last (highest-price) bucket's cumulative equals the
total short value. -/
theorem c1_cumulative_correct (ps : List PyPos) (prices : Snap) (c : String)
    (d : CoinData) (hm : (c, d) ∈ aggregate_liquidations ps prices) :
    (∀ ob : OutBucket,
        (longDataDesc d.currentPrice (ps.filter (fun p => p.coin = c))).head?
            = some ob →
        ob.cumulative = ob.value) ∧
    (∀ ob : OutBucket,
        (longDataDesc d.currentPrice (ps.filter (fun p => p.coin = c))).getLast?
            = some ob →
        ob.cumulative = d.totalLongValue) ∧
    (∀ ob : OutBucket,
        (shortDataAsc d.currentPrice (ps.filter (fun p => p.coin = c))).head?
            = some ob →
        ob.cumulative = ob.value) ∧
    (∀ ob : OutBucket,
        (shortDataAsc d.currentPrice (ps.filter (fun p => p.coin = c))).getLast?
            = some ob →
        ob.cumulative = d.totalShortValue) := by
  have hd := mem_aggregate ps prices c d hm
  have hprice : d.currentPrice = lookupD prices c := by
    rw [hd, aggregateCoin_currentPrice]
  refine ⟨?_, ?_, ?_, ?_⟩
  · intro ob h
    rw [hprice] at h
    simp only [longDataDesc] at h
    have h2 := mkCum_head? _ 0 ob h
    simpa using h2
  · intro ob h
    rw [hprice] at h
    simp only [longDataDesc] at h
    have h2 := mkCum_getLast? _ 0 ob h
    rw [h2, zero_add, sumTot_sortPairsDesc, runPositions_sumLong, hd,
      aggregateCoin_totalLong]
  · intro ob h
    rw [hprice] at h
    simp only [shortDataAsc] at h
    have h2 := mkCum_head? _ 0 ob h
    simpa using h2
  · intro ob h
    rw [hprice] at h
    simp only [shortDataAsc] at h
    have h2 := mkCum_getLast? _ 0 ob h
    rw [h2, zero_add, sumTot_sortPairsAsc, runPositions_sumShort, hd,
      aggregateCoin_totalShort]

/-- C2. For every instrument in the engine's output (non-zero price, at
least one matching position), every emitted bucket on either side has its
four tier sub-totals summing exactly to its total value. The hypothesis
that every position's tier label is one of the four real labels is
guaranteed by the collector (`collector_labels` below). -/
theorem c2_tier_sum_eq_value (ps : List PyPos) (prices : Snap) (c : String)
    (d : CoinData)
    (hlb : ∀ p ∈ ps, p.leverageBucket ∈ ["10x", "25x", "50x", "100x"])
    (hm : (c, d) ∈ aggregate_liquidations ps prices) :
    ∀ ob : OutBucket, ob ∈ d.longLiquidations ∨ ob ∈ d.shortLiquidations →
      ob.x10 + ob.x25 + ob.x50 + ob.x100 = ob.value := by
  have hd := mem_aggregate ps prices c d hm
  have hcp_lb : ∀ p ∈ ps.filter (fun p => p.coin = c),
      p.leverageBucket ∈ ["10x", "25x", "50x", "100x"] :=
    fun p hp => hlb p (List.mem_of_mem_filter hp)
  have htier := runPositions_tier (lookupD prices c)
    (ps.filter (fun p => p.coin = c)) hcp_lb
  intro ob hob
  rcases hob with hob | hob
  · rw [hd, aggregateCoin_long] at hob
    simp only [sortBucketsAsc] at hob
    rw [mem_sortStable] at hob
    simp only [longDataDesc] at hob
    rcases mkCum_mem _ 0 ob hob with ⟨kb, hkb, hv, h10, h25, h50, h100⟩
    simp only [sortPairsDesc] at hkb
    rw [mem_sortStable] at hkb
    have ht := htier.1 kb hkb
    rw [hv, h10, h25, h50, h100]
    simpa [tierSum] using ht
  · rw [hd, aggregateCoin_short] at hob
    simp only [sortBucketsAsc] at hob
    rw [mem_sortStable] at hob
    simp only [shortDataAsc] at hob
    rcases mkCum_mem _ 0 ob hob with ⟨kb, hkb, hv, h10, h25, h50, h100⟩
    simp only [sortPairsAsc] at hkb
    rw [mem_sortStable] at hkb
    have ht := htier.2 kb hkb
    rw [hv, h10, h25, h50, h100]
    simpa [tierSum] using ht

/-! ### The collector only produces the four tier labels -/

theorem except_bind_ok {α β : Type} (x : Except Unit α) (f : α → Except Unit β)
    (b : β) (h : x >>= f = .ok b) : ∃ a, x = .ok a ∧ f a = .ok b := by
  cases x with
  | error e => simp [Bind.bind, Except.bind] at h
  | ok a => exact ⟨a, rfl, by simpa [Bind.bind, Except.bind] using h⟩

/-- The classifier never leaves a value unlabelled: its output is always
one of the four configured labels. -/
theorem glb_mem (v : ℚ) :
    get_leverage_bucket v ∈ ["10x", "25x", "50x", "100x"] := by
  unfold get_leverage_bucket LEVERAGE_BUCKETS
  simp only [findBucket]
  split_ifs <;> simp

/-- `Except.bind` inverts on a success, written for the explicit `.bind`
form. -/
theorem except_bind_ok2 {α β : Type} (x : Except Unit α)
    (f : α → Except Unit β) (b : β) (h : x.bind f = .ok b) :
    ∃ a, x = .ok a ∧ f a = .ok b := by
  cases x with
  | error e => simp [Except.bind] at h
  | ok a => exact ⟨a, rfl, by simpa [Except.bind] using h⟩

/-- Every position the entry parser emits carries one of the four labels. -/
theorem parseEntry_labels (ap : JVal) (p : PyPos)
    (h : parseEntry ap = .ok (some p)) :
    p.leverageBucket ∈ ["10x", "25x", "50x", "100x"] := by
  unfold parseEntry at h
  rcases except_bind_ok2 _ _ _ h with ⟨pos, hpos, h⟩
  rcases except_bind_ok2 _ _ _ h with ⟨coinJ, hcoin, h⟩
  cases coinJ with
  | str coin =>
      simp only [parseCoin] at h
      by_cases hmem : coin ∈ TOP_COINS
      · rw [if_pos hmem] at h
        unfold parseTracked at h
        rcases except_bind_ok2 _ _ _ h with ⟨liqJ, hliq, h⟩
        rcases except_bind_ok2 _ _ _ h with ⟨entryJ, hentry, h⟩
        rcases except_bind_ok2 _ _ _ h with ⟨sziJ, hszi, h⟩
        rcases except_bind_ok2 _ _ _ h with ⟨levJ, hlev, h⟩
        by_cases htr : (jTruthy liqJ && jTruthy entryJ) = true
        · rw [if_pos htr] at h
          rcases except_bind_ok2 _ _ _ h with ⟨szf, hszf, h⟩
          rcases except_bind_ok2 _ _ _ h with ⟨lev, hlev2, h⟩
          rcases except_bind_ok2 _ _ _ h with ⟨liq, hliq2, h⟩
          rcases except_bind_ok2 _ _ _ h with ⟨entry, hentry2, h⟩
          simp only [Except.ok.injEq, Option.some.injEq] at h
          rw [← h]
          exact glb_mem lev
        · rw [if_neg htr] at h
          simp at h
      · rw [if_neg hmem] at h
        simp at h
  | null => simp [parseCoin] at h
  | bool b2 => simp [parseCoin] at h
  | num q => simp [parseCoin] at h
  | arr l => simp [parseCoin] at h
  | obj kvs => simp [parseCoin] at h

/-- The entry fold preserves "all labels are real tiers". -/
theorem foldlM_labels (l : List JVal) :
    ∀ (acc out : List PyPos),
      (∀ p ∈ acc, p.leverageBucket ∈ ["10x", "25x", "50x", "100x"]) →
      (l.foldlM (fun acc ap => do
        match (← parseEntry ap) with
        | some p => pure (acc ++ [p])
        | none => pure acc) acc) = .ok out →
      ∀ p ∈ out, p.leverageBucket ∈ ["10x", "25x", "50x", "100x"] := by
  induction l with
  | nil =>
      intro acc out hacc h
      simp only [List.foldlM_nil, pure, Except.pure, Except.ok.injEq] at h
      rw [← h]
      exact hacc
  | cons ap rest ih =>
      intro acc out hacc h
      rw [List.foldlM_cons] at h
      rcases except_bind_ok _ _ _ h with ⟨acc2, hstep, h⟩
      rcases except_bind_ok _ _ _ hstep with ⟨r, hr, hstep2⟩
      cases r with
      | some p =>
          simp only [pure, Except.pure, Except.ok.injEq] at hstep2
          refine ih acc2 out ?_ h
          intro q hq
          rw [← hstep2] at hq
          rcases List.mem_append.mp hq with hq | hq
          · exact hacc q hq
          · rw [List.mem_singleton.mp hq]
            exact parseEntry_labels ap p hr
      | none =>
          simp only [pure, Except.pure, Except.ok.injEq] at hstep2
          refine ih acc2 out ?_ h
          rw [← hstep2]
          exact hacc

/-- Every position `fetch_clearinghouse_state` returns carries one of the
four configured tier labels (so C2's label hypothesis holds for any list
of positions produced by the collector). -/
theorem collector_labels (resp : Except Unit JVal) :
    ∀ p ∈ fetch_clearinghouse_state resp,
      p.leverageBucket ∈ ["10x", "25x", "50x", "100x"] := by
  unfold fetch_clearinghouse_state
  cases hres : resp >>= parsePositions with
  | error e => simp
  | ok l =>
      rcases except_bind_ok _ _ _ hres with ⟨data, hdata, hparse⟩
      unfold parsePositions at hparse
      rcases except_bind_ok _ _ _ hparse with ⟨aps, haps, hparse2⟩
      cases aps with
      | arr entries => exact foldlM_labels entries [] l (by simp) hparse2
      | null => simp at hparse2
      | bool b => simp at hparse2
      | num q => simp at hparse2
      | str s => simp at hparse2
      | obj kvs => simp at hparse2

/-! ### Window exclusion -/

/-- A position outside the window leaves the loop state untouched. -/
theorem stepPos_skip (price : ℚ) (st : AggState) (p : PyPos)
    (h : inWindow price p.liquidationPx = false) :
    stepPos price st p = st := by
  unfold stepPos
  simp [h]

/-- Strictly outside the window means the membership test is false. -/
theorem outside_not_inWindow (price liq : ℚ)
    (h : liq < price * (7/10) ∨ price * (13/10) < liq) :
    inWindow price liq = false := by
  unfold inWindow
  rcases h with h | h
  · simp [not_le.mpr h]
  · simp [not_le.mpr h]

/-- Removing an out-of-window position does not change the loop result. -/
theorem runPositions_drop (price : ℚ) (l1 l2 : List PyPos) (p : PyPos)
    (h : inWindow price p.liquidationPx = false) :
    runPositions price (l1 ++ p :: l2) = runPositions price (l1 ++ l2) := by
  unfold runPositions
  rw [List.foldl_append, List.foldl_append, List.foldl_cons,
    stepPos_skip price _ p h]

/-- C3. A position of the instrument whose liquidation price is strictly
outside `[price*0.7, price*1.3]` is counted in `positionCount` but changes
nothing else of the instrument's profile — no bucket value, tier sub-total,
cumulative, or side total; and a liquidation price exactly on either window
boundary passes the (inclusive) window test. -/
theorem c3_window_exclusion (price : ℚ) (l1 l2 : List PyPos) (p : PyPos)
    (hout : p.liquidationPx < price * (7/10) ∨
            price * (13/10) < p.liquidationPx) :
    aggregateCoin price (l1 ++ p :: l2)
      = { aggregateCoin price (l1 ++ l2) with
            positionCount := (aggregateCoin price (l1 ++ l2)).positionCount + 1 }
    ∧ ∀ liq : ℚ, 0 ≤ price →
        (liq = price * (7/10) ∨ liq = price * (13/10)) →
        inWindow price liq = true := by
  constructor
  · have hw : inWindow price p.liquidationPx = false :=
      outside_not_inWindow price p.liquidationPx hout
    have hrun := runPositions_drop price l1 l2 p hw
    unfold aggregateCoin longDataDesc shortDataAsc
    rw [hrun]
    simp [List.length_append]
    omega
  · intro liq h0 hb
    have hmono : price * (7/10) ≤ price * (13/10) := by nlinarith
    unfold inWindow
    rcases hb with rfl | rfl
    · simp [hmono]
    · simp [hmono]

/-! ### Concrete objects used by the end-to-end examples -/

/-- The long position of the spec's end-to-end example: liquidation 85,
notional 1000, tier 10x. -/
def pos8 : PyPos :=
  { coin := "BTC", liquidationPx := 85, entryPx := 100, size := 10,
    positionValue := 1000, leverage := 10, leverageBucket := "10x",
    side := "long" }

/-- The single bucket the example produces: bucket 12 of the window
`[70, 130]` spans `[84.4, 85.6]` and its midpoint is 85.0. -/
def bucket8 : OutBucket :=
  { price := 85, value := 1000, cumulative := 1000,
    x10 := 1000, x25 := 0, x50 := 0, x100 := 0 }

/-- The BTC profile the example produces. -/
def profile8 : CoinData :=
  { currentPrice := 100, longLiquidations := [bucket8],
    shortLiquidations := [], totalLongValue := 1000, totalShortValue := 0,
    positionCount := 1 }

/-- A position strictly above the example window (liquidation 200 > 130). -/
def posOut : PyPos :=
  { coin := "BTC", liquidationPx := 200, entryPx := 100, size := 1,
    positionValue := 100, leverage := 5, leverageBucket := "10x",
    side := "long" }

/-! ### C8 -/

/-- C8 counterexample. Running the engine on the end-to-end example itself
(price 100 for "BTC", window `[70, 130]`, 50 buckets of width 1.2, one long
position with liquidation 85 and notional 1000): the sole emitted long
bucket's representative price is exactly 85.0, which is not 85.6 and not
approximately 85.6 either — it differs from 85.6 by exactly half a bucket
width (0.6), because 85.6 is the upper *edge* of bucket 12
`[84.4, 85.6]`, not its midpoint. -/
theorem c8_center_counterexample :
    (aggregate_liquidations [pos8] [("BTC", 100)]).map
        (fun e => e.2.longLiquidations.map (fun ob => ob.price)) = [[85]] ∧
    ¬ ((85 : ℚ) = 856/10) ∧
    |(85 : ℚ) - 856/10|
      = ((100 * (13/10 : ℚ) - 100 * (7/10)) / 50) / 2 := by
  exact ⟨by decide, by norm_num, by decide⟩

/-- C8 (amended): with current price 100 for "BTC" and the single long
position `pos8` (liquidation 85, notional 1000, tier 10x), the position
falls in bucket index `min(int((85-70)/1.2), 49) = 12`; the code's
representative-price formula `price_min + (idx + 0.5) * bucket_size`
evaluates at index 12 to exactly 85.0 (the midpoint of `[84.4, 85.6]`);
and the full output is the profile in which that position is the sole
contributor to the bucket's total (1000), its 10x sub-total (1000), and
the cumulative value (1000) of the descending-accumulation pass. -/
theorem c8_example_amended :
    aggregate_liquidations [pos8] [("BTC", 100)] = [("BTC", profile8)] ∧
    min (pyInt ((85 - 100 * (7/10 : ℚ))
        / ((100 * (13/10 : ℚ) - 100 * (7/10)) / 50))) 49 = 12 ∧
    100 * (7/10 : ℚ) + (((12 : ℤ) : ℚ) + 1/2)
        * ((100 * (13/10 : ℚ) - 100 * (7/10)) / 50) = 85 := by
  exact ⟨by decide, by decide, by decide⟩

/-! ### C5 -/

/-- C5 counterexample. A leverage below the lowest range's min (here 0.5,
below min 1) is *not* clamped to the nearest tier ("10x"): the loop falls
through and returns the highest tier's label "100x". -/
theorem c5_clamp_counterexample :
    get_leverage_bucket (1/2) = "100x" ∧
    ¬ get_leverage_bucket (1/2) = "10x" := by
  exact ⟨by decide, by decide⟩

/-- C5 (amended): `get_leverage_bucket` always returns exactly one of the
four tier labels (never "unclassified", never an error); any value not
matched by an explicit range — above the highest max *or below the lowest
min* — falls through to the highest tier's label "100x". -/
theorem c5_clamp_amended (v : ℚ) :
    (get_leverage_bucket v = "10x" ∨ get_leverage_bucket v = "25x" ∨
     get_leverage_bucket v = "50x" ∨ get_leverage_bucket v = "100x") ∧
    (100 < v → get_leverage_bucket v = "100x") ∧
    (v < 1 → get_leverage_bucket v = "100x") := by
  unfold get_leverage_bucket LEVERAGE_BUCKETS
  simp only [findBucket]
  split_ifs with h1 h2 h3 h4
  · exact ⟨Or.inl rfl,
      fun hv => absurd hv (not_lt.mpr (h1.2.trans (by norm_num))),
      fun hv => absurd hv (not_lt.mpr h1.1)⟩
  · exact ⟨Or.inr (Or.inl rfl),
      fun hv => absurd hv (not_lt.mpr (h2.2.trans (by norm_num))),
      fun hv => absurd hv (not_lt.mpr (le_trans (by norm_num) h2.1))⟩
  · exact ⟨Or.inr (Or.inr (Or.inl rfl)),
      fun hv => absurd hv (not_lt.mpr (h3.2.trans (by norm_num))),
      fun hv => absurd hv (not_lt.mpr (le_trans (by norm_num) h3.1))⟩
  · exact ⟨Or.inr (Or.inr (Or.inr rfl)), fun _ => rfl, fun _ => rfl⟩
  · exact ⟨Or.inr (Or.inr (Or.inr rfl)), fun _ => rfl, fun _ => rfl⟩

theorem c5_clamp_witness :
    get_leverage_bucket 200 = "100x" ∧ get_leverage_bucket (1/3) = "100x" :=
  ⟨(c5_clamp_amended 200).2.1 (by norm_num),
   (c5_clamp_amended (1/3)).2.2 (by norm_num)⟩

/-! ### C4 -/

/-- C4 counterexample. The primary source succeeds with an *empty* list
(`data = []` decodes fine and yields zero wallets); the fallback source
would have produced a wallet, yet `fetch_leaderboard` returns `([], 0)`:
the empty list is returned and the secondary source is attempted zero
times, not once. -/
theorem c4_fallback_counterexample :
    fetch_leaderboard (Except.ok (JVal.arr []))
        (Except.ok (JVal.arr [JVal.obj [("user", JVal.str "0xabc")]]))
      = ([], 0) ∧
    extractFallback (JVal.arr [JVal.obj [("user", JVal.str "0xabc")]])
      = [JVal.str "0xabc"] :=
  ⟨rfl, rfl⟩

/-- C4 (amended): the secondary (POST-style) source is attempted exactly
once when — and only when — the primary attempt *raises* (transport,
decode, or extraction error); a primary response that decodes to zero
accounts is returned as-is with no fallback attempt; and when the primary
raises and the secondary also fails, the function returns the empty list
rather than raising. -/
theorem c4_fallback_amended (p s : Except Unit JVal) :
    (∀ e : Unit, p >>= extractPrimary = .error e →
        (fetch_leaderboard p s).2 = 1) ∧
    (∀ ws : List JVal, p >>= extractPrimary = .ok ws →
        fetch_leaderboard p s = (ws, 0)) ∧
    (∀ e e2 : Unit, p >>= extractPrimary = .error e → s = .error e2 →
        fetch_leaderboard p s = ([], 1)) := by
  refine ⟨?_, ?_, ?_⟩
  · intro e h
    unfold fetch_leaderboard
    rw [h]
    cases s <;> rfl
  · intro ws h
    unfold fetch_leaderboard
    rw [h]
  · intro e e2 h hs
    unfold fetch_leaderboard
    rw [h, hs]

theorem c4_fallback_witness :
    fetch_leaderboard (Except.error ()) (Except.error ()) = ([], 1) ∧
    fetch_leaderboard (Except.ok (JVal.arr [])) (Except.error ()) = ([], 0) :=
  ⟨(c4_fallback_amended (Except.error ()) (Except.error ())).2.2 () () rfl rfl,
   (c4_fallback_amended (Except.ok (JVal.arr [])) (Except.error ())).2.1 [] rfl⟩

/-! ### C6 -/

/-- An `assetPositions` entry whose position carries the given leverage
descriptor (tracked coin, liquidation 85, entry 100, size 1). -/
def levEntry (lv : JVal) : JVal :=
  .obj [("position", .obj [("coin", .str "BTC"), ("liquidationPx", .num 85),
    ("entryPx", .num 100), ("szi", .num 1), ("leverage", lv)])]

/-- The same entry with no leverage descriptor at all. -/
def levEntryNoLev : JVal :=
  .obj [("position", .obj [("coin", .str "BTC"), ("liquidationPx", .num 85),
    ("entryPx", .num 100), ("szi", .num 1)])]

/-- The position `levEntry` parses to, as a function of the resulting
leverage. -/
def levPos (v : ℚ) : PyPos :=
  { coin := "BTC", liquidationPx := 85, entryPx := 100, size := 1,
    positionValue := 100, leverage := v,
    leverageBucket := get_leverage_bucket v, side := "long" }

/-- C6 counterexample. A *bare number* leverage descriptor (here 25) is not
used as the leverage: the `isinstance(dict)` test fails and the position is
built with leverage 1, not 25. -/
theorem c6_bare_leverage_counterexample :
    parseEntry (levEntry (JVal.num 25)) = .ok (some (levPos 1)) ∧
    ¬ (levPos 1).leverage = 25 := by
  constructor
  · simp [parseEntry, parseCoin, parseTracked, levEntry, jgetD, jlookup,
      extractLeverage, pyFloat, jTruthy, TOP_COINS, levPos, Except.bind]
  · norm_num [levPos]

/-- C6 (amended): the position's leverage comes from the descriptor's
`value` field only when the descriptor is a dict (defaulting to 1 when the
field is absent); *any non-dict descriptor — including a bare number —
yields leverage 1*; a missing descriptor defaults to the empty dict and
hence leverage 1. -/
theorem c6_leverage_amended (v : ℚ) :
    parseEntry (levEntry (JVal.num v)) = .ok (some (levPos 1)) ∧
    parseEntry (levEntry (JVal.obj [("value", JVal.num v)]))
      = .ok (some (levPos v)) ∧
    parseEntry levEntryNoLev = .ok (some (levPos 1)) := by
  refine ⟨?_, ?_, ?_⟩ <;>
    simp [parseEntry, parseCoin, parseTracked, levEntry, levEntryNoLev, jgetD,
      jlookup, extractLeverage, pyFloat, jTruthy, TOP_COINS, levPos,
      Except.bind]

/-! ### C7 -/

/-- C7. A failed price fetch (transport/parse error) yields the empty
snapshot; a decoded body lacking its second, index-aligned contexts element
(fewer than two list elements) also yields the empty snapshot; and with an
empty snapshot the aggregation engine omits every instrument from its
output mapping. -/
theorem c7_empty_price_snapshot :
    fetch_current_prices (Except.error ()) = [] ∧
    (∀ l : List JVal, l.length < 2 →
        fetch_current_prices (Except.ok (JVal.arr l)) = []) ∧
    (∀ ps : List PyPos, aggregate_liquidations ps [] = []) := by
  refine ⟨rfl, ?_, ?_⟩
  · intro l h
    unfold fetch_current_prices
    have h2 : (Except.ok (JVal.arr l)).bind pricesTry = .ok [] := by
      simp [Except.bind, pricesTry, not_le.mpr h]
    rw [h2]
  · intro ps
    simp [aggregate_liquidations, TOP_COINS, lookupD]

theorem c7_empty_price_snapshot_witness :
    fetch_current_prices (Except.ok (JVal.arr [])) = [] ∧
    aggregate_liquidations [] [] = [] :=
  ⟨c7_empty_price_snapshot.2.1 [] (by decide),
   c7_empty_price_snapshot.2.2 []⟩

/-! ### C9 -/

/-- C9. A transport error for an account yields the empty position list; a
parse error inside the account's decoded body also yields the empty list
(never an exception past the component boundary); and a failing account
anywhere in the wallet list leaves the positions collected from all other
accounts, before or after it, unchanged. -/
theorem c9_per_account_isolation :
    fetch_clearinghouse_state (Except.error ()) = [] ∧
    (∀ (j : JVal) (e : Unit), parsePositions j = .error e →
        fetch_clearinghouse_state (Except.ok j) = []) ∧
    (∀ (oracle : JVal → Except Unit JVal) (ws1 ws2 : List JVal) (w : JVal),
        oracle w = .error () →
        collectAll oracle (ws1 ++ w :: ws2) = collectAll oracle (ws1 ++ ws2)) := by
  refine ⟨rfl, ?_, ?_⟩
  · intro j e h
    unfold fetch_clearinghouse_state
    have h2 : (Except.ok j) >>= parsePositions = Except.error e := by
      simp [Bind.bind, Except.bind, h]
    rw [h2]
  · intro oracle ws1 ws2 w h
    unfold collectAll
    simp only [List.foldl_append, List.foldl_cons]
    simp [h, fetch_clearinghouse_state, Bind.bind, Except.bind]

theorem c9_per_account_isolation_witness :
    collectAll (fun _ => Except.error ()) [JVal.null]
      = collectAll (fun _ => Except.error ()) [] ∧
    fetch_clearinghouse_state (Except.ok (JVal.num 0)) = [] :=
  ⟨c9_per_account_isolation.2.2 (fun _ => Except.error ()) [] [] JVal.null rfl,
   c9_per_account_isolation.2.1 (JVal.num 0) () rfl⟩

/-! ### C10 -/

/-- A clearinghouse response with one tracked-coin entry that has non-zero
prices but *no* `szi` field (and no leverage descriptor). -/
def zeroSizePayload (lq e : ℚ) : JVal :=
  .obj [("assetPositions", .arr [.obj [("position", .obj [("coin", .str "BTC"),
    ("liquidationPx", .num lq), ("entryPx", .num e)])]])]

/-- The position that entry parses to at liquidation 85, entry 100. -/
def zeroSizePos : PyPos :=
  { coin := "BTC", liquidationPx := 85, entryPx := 100, size := 0,
    positionValue := 0, leverage := 1, leverageBucket := "10x",
    side := "short" }

/-- The zero-value bucket that position lands in (price 100, bucket 12). -/
def zeroBucket : OutBucket :=
  { price := 85, value := 0, cumulative := 0, x10 := 0, x25 := 0, x50 := 0,
    x100 := 0 }

/-- The resulting BTC profile: one counted position, one zero-value short
bucket. -/
def zeroProfile : CoinData :=
  { currentPrice := 100, longLiquidations := [],
    shortLiquidations := [zeroBucket], totalLongValue := 0,
    totalShortValue := 0, positionCount := 1 }

/-- C10. A tracked entry with truthy (non-zero) liquidation and entry
prices but a missing (or zero) signed size is *not* skipped: it becomes a
position with side "short", size 0, value 0; folded through the engine at
price 100 it increments `positionCount` and lands in a bucket contributing
zero value. -/
theorem c10_zero_size_position (lq e : ℚ) (hlq : lq ≠ 0) (he : e ≠ 0) :
    fetch_clearinghouse_state (Except.ok (zeroSizePayload lq e))
      = [{ coin := "BTC", liquidationPx := lq, entryPx := e, size := 0,
           positionValue := 0, leverage := 1, leverageBucket := "10x",
           side := "short" }] ∧
    aggregate_liquidations [zeroSizePos] [("BTC", 100)]
      = [("BTC", zeroProfile)] := by
  constructor
  · simp [fetch_clearinghouse_state, parsePositions, parseEntry, parseCoin,
      parseTracked, zeroSizePayload, jgetD, jlookup, extractLeverage, pyFloat,
      jTruthy, TOP_COINS, Bind.bind, Except.bind, hlq, he, pure, Except.pure,
      show get_leverage_bucket (1 : ℚ) = "10x" from rfl]
  · decide

theorem c10_zero_size_position_witness :
    fetch_clearinghouse_state (Except.ok (zeroSizePayload 85 100))
      = [zeroSizePos] ∧
    aggregate_liquidations [zeroSizePos] [("BTC", 100)]
      = [("BTC", zeroProfile)] :=
  c10_zero_size_position 85 100 (by norm_num) (by norm_num)

/-! ### Witnesses for the aggregation claims -/

theorem c1_cumulative_correct_witness :
    bucket8.cumulative = bucket8.value ∧
    bucket8.cumulative = profile8.totalLongValue := by
  have h := c1_cumulative_correct [pos8] [("BTC", 100)] "BTC" profile8
    (by decide)
  exact ⟨h.1 bucket8 (by decide), h.2.1 bucket8 (by decide)⟩

theorem c2_tier_sum_eq_value_witness :
    bucket8.x10 + bucket8.x25 + bucket8.x50 + bucket8.x100 = bucket8.value := by
  have h := c2_tier_sum_eq_value [pos8] [("BTC", 100)] "BTC" profile8
    (by decide) (by decide)
  exact h bucket8 (Or.inl (by decide))

theorem c3_window_exclusion_witness :
    aggregateCoin 100 [posOut]
      = { aggregateCoin 100 ([] : List PyPos) with
            positionCount :=
              (aggregateCoin 100 ([] : List PyPos)).positionCount + 1 } ∧
    inWindow 100 70 = true := by
  have h := c3_window_exclusion 100 [] [] posOut (Or.inr (by norm_num [posOut]))
  exact ⟨h.1, h.2 70 (by norm_num) (Or.inl (by norm_num))⟩
